import Mathlib

/-!
Verification of the `logger` package of cdjg35/cloudinfo
(`src/logger/logger.go`): the context field store (`ToContext` /
`Extract`), the logger configuration (`InitLogger` / `newLogger`) and
the field accumulator (`logCtxBuilder`).

Go maps (`map[string]interface{}`) are embedded as association lists
with a lookup that returns the first binding and a write that replaces
the first binding in place (appending when the key is absent); both
agree with Go map semantics on every map whose keys are unique, which
is an invariant of every real Go map.  `for k, v := range src` loops
that write into a destination map are embedded as a left fold of the
write over the source list; a Go map's iteration order is unspecified,
and on unique-key sources the fold's result is independent of the
chosen order (proved below lookup-wise).
-/

namespace Logger

/-- A Go `interface{}` value as it occurs in the logger package: the
package stores strings and opaque scrape identifiers; we model the
payload as either a string or an integer tag. -/
inductive GoValue where
  | str (s : String)
  | int (n : Int)
deriving DecidableEq

/-- `map[string]interface{}` (a non-nil Go map), as an association list. -/
abbrev FieldMap := List (String × GoValue)

/-- Go map read `m[k]`: the value of the first binding of `k`, if any. -/
def getF : FieldMap → String → Option GoValue
  | [], _ => none
  | (k', v) :: rest, k => if k = k' then some v else getF rest k

/-- Go map write `m[k] = v`: replace the binding of `k` in place, or
append a new binding when `k` is absent. -/
def mapInsert : FieldMap → String → GoValue → FieldMap
  | [], k, v => [(k, v)]
  | (k', v') :: rest, k, v =>
      if k' = k then (k, v) :: rest else (k', v') :: mapInsert rest k v

/-- `for k, v := range src { dst[k] = v }`: fold the Go map write over
the source's bindings. -/
def rangeCopy (dst src : FieldMap) : FieldMap :=
  src.foldl (fun acc p => mapInsert acc p.1 p.2) dst

/-- The invariant every real Go map satisfies: one binding per key. -/
def WFMap (m : FieldMap) : Prop := (m.map Prod.fst).Nodup

instance (m : FieldMap) : Decidable (WFMap m) := by
  unfold WFMap; infer_instance

/-- The value stored under the package's private `ctxKey` in a context
node: a typed nil map, a non-nil map, or a value of some non-map type. -/
inductive StoredVal where
  | nilMap
  | mapVal (m : FieldMap)
  | nonMap
deriving DecidableEq

/-- A Go `context.Context`: `context.Background()`, a
`context.WithValue` node keyed by the logger package's `ctxKey`, or a
`context.WithValue` node keyed by some unrelated key. -/
inductive GoCtx where
  | background
  | withLoggerVal (parent : GoCtx) (v : StoredVal)
  | withOtherVal (parent : GoCtx)
deriving DecidableEq

/-- `ctx.Value(ctxKey)`: walk to the nearest node keyed by `ctxKey`;
`none` models the nil interface returned when no such node exists. -/
def ctxValue : GoCtx → Option StoredVal
  | .background => none
  | .withLoggerVal _ v => some v
  | .withOtherVal p => ctxValue p

/-- The comma-ok type assertion
`fds, ok := ctx.Value(ctxKey).(map[string]interface{})`: yields the map
(`none` standing for a nil map) and the `ok` flag. -/
def typeAssertMap : Option StoredVal → Option FieldMap × Bool
  | none => (none, false)
  | some .nilMap => (none, true)
  | some (.mapVal m) => (some m, true)
  | some .nonMap => (none, false)

/-- The logrus severity levels. -/
inductive Level where
  | levelPanic | levelFatal | levelError | levelWarn | levelInfo | levelDebug | levelTrace
deriving DecidableEq

/-- A logrus formatter: `logrus.JSONFormatter` or `logrus.TextFormatter`
with its `FullTimestamp` flag. -/
inductive Formatter where
  | jsonFormatter
  | textFormatter (fullTimestamp : Bool)
deriving DecidableEq

/-- The observable configuration of a `*logrus.Logger`: severity
threshold and formatter. -/
structure LogrusLogger where
  level : Level
  formatter : Formatter
deriving DecidableEq

/-- `strings.ToLower` of Go's strings package, character-wise (the
inputs at hand are ASCII). -/
def toLowerStr (s : String) : String := String.mk (s.data.map Char.toLower)

/-- `logrus.ParseLevel` from the external logrus dependency: matches
the lower-cased input against the level names, `none` standing for the
error return on any other string. -/
def ParseLevel (lvl : String) : Option Level :=
  match toLowerStr lvl with
  | "panic" => some .levelPanic
  | "fatal" => some .levelFatal
  | "error" => some .levelError
  | "warn" => some .levelWarn
  | "warning" => some .levelWarn
  | "info" => some .levelInfo
  | "debug" => some .levelDebug
  | "trace" => some .levelTrace
  | _ => none

/-- `logrus.New()`: info level and a text formatter with
`FullTimestamp` unset — the package-level default `logger`. -/
def initialLogger : LogrusLogger :=
  { level := .levelInfo, formatter := .textFormatter false }

/-- Config holds information necessary for customizing the logger
(`Config` in logger.go). -/
structure Config where
  Level : String
  Format : String
deriving DecidableEq

/-- `newLogger` (logger.go lines 56–78): parse the level, falling back
to `logrus.InfoLevel` on error; select the JSON formatter on `"json"`
and otherwise a text formatter with `FullTimestamp = true`. -/
def newLogger (config : Config) : LogrusLogger :=
  let level := match ParseLevel config.Level with
    | some l => l
    | none => Level.levelInfo
  let formatter := if config.Format = "json"
    then Formatter.jsonFormatter
    else Formatter.textFormatter true
  { level := level, formatter := formatter }

/-- `InitLogger` (logger.go lines 41–48) sets level and format for the
package-level logger; the assignment to the global is embedded by
returning the new value of that global. -/
def InitLogger (level format : String) : LogrusLogger :=
  newLogger { Level := level, Format := format }

/-- A `*logrus.Entry` as produced by `Extract`: the logger it is bound
to and its field data (`logrus.NewEntry(logger)` has empty data;
`logger.WithFields(fields)` carries `fields`). -/
structure Entry where
  entryLogger : LogrusLogger
  fields : FieldMap
deriving DecidableEq

/-- `Extract` (logger.go lines 81–94): assert the context value to a
map; on `!ok || fds == nil` return `logrus.NewEntry(logger)`, else copy
the bindings into a fresh `logrus.Fields` and return
`logger.WithFields(fields)`.  The package-level global `logger` is
passed explicitly as `lg`. -/
def Extract (lg : LogrusLogger) (ctx : GoCtx) : Entry :=
  match typeAssertMap (ctxValue ctx) with
  | (some fds, true) => { entryLogger := lg, fields := rangeCopy [] fds }
  | _ => { entryLogger := lg, fields := [] }

/-- `ToContext` (logger.go lines 97–114): assert the parent's value to
a map; when the parent holds a typed nil map (`parentVals == nil && ok`)
store `fields` directly; when `ok`, run
`for k, v := range parentVals { fields[k] = v }` — writing the parent's
bindings into the caller's `fields` map — and store the result; when
`!ok`, store `fields` directly.  The first component is the returned
child context; the second is the post-call contents of the caller's
`fields` map object (the very object the child context stores). -/
def ToContext (ctx : GoCtx) (fields : FieldMap) : GoCtx × FieldMap :=
  match typeAssertMap (ctxValue ctx) with
  | (none, true) => (.withLoggerVal ctx (.mapVal fields), fields)
  | (some parentVals, true) =>
      let merged := rangeCopy fields parentVals
      (.withLoggerVal ctx (.mapVal merged), merged)
  | (_, false) => (.withLoggerVal ctx (.mapVal fields), fields)

/-- `correlationIdKey` (logger.go line 31). -/
def correlationIdKey : String := "correlation-id"
/-- `scrapeIdFullKey` (logger.go line 32). -/
def scrapeIdFullKey : String := "scrape-id-full"
/-- `scrapeIdShortKey` (logger.go line 33). -/
def scrapeIdShortKey : String := "scrape-id-short"
/-- `providerKey` (logger.go line 35). -/
def providerKey : String := "provider"
/-- `serviceKey` (logger.go line 36). -/
def serviceKey : String := "service"
/-- `regionKey` (logger.go line 37). -/
def regionKey : String := "region"

/-- `logCtxBuilder`: helper struct to build the context for logging
purposes; its `ctx` map is `none` while still the nil zero value. -/
structure logCtxBuilder where
  ctx : Option FieldMap
deriving DecidableEq

/-- `(*logCtxBuilder).init`: allocate the map if it is still nil. -/
def logCtxBuilder.initB (cb : logCtxBuilder) : logCtxBuilder :=
  match cb.ctx with
  | none => { ctx := some [] }
  | some _ => cb

/-- `NewLogCtxBuilder`: zero struct followed by `init`. -/
def NewLogCtxBuilder : logCtxBuilder :=
  logCtxBuilder.initB { ctx := none }

/-- `WithField`: `init` then `cb.ctx[field] = value`, returning the
builder itself. -/
def logCtxBuilder.WithField (cb : logCtxBuilder) (field : String) (value : GoValue) :
    logCtxBuilder :=
  let cb := cb.initB
  { ctx := cb.ctx.map (fun m => mapInsert m field value) }

/-- `WithProvider`: `WithField(providerKey, provider)`. -/
def logCtxBuilder.WithProvider (cb : logCtxBuilder) (provider : String) : logCtxBuilder :=
  cb.WithField providerKey (.str provider)

/-- `WithService`: `WithField(serviceKey, service)`. -/
def logCtxBuilder.WithService (cb : logCtxBuilder) (service : String) : logCtxBuilder :=
  cb.WithField serviceKey (.str service)

/-- `WithRegion`: `WithField(regionKey, region)`. -/
def logCtxBuilder.WithRegion (cb : logCtxBuilder) (region : String) : logCtxBuilder :=
  cb.WithField regionKey (.str region)

/-- `WithCorrelationId`: `WithField(correlationIdKey, cid)`. -/
def logCtxBuilder.WithCorrelationId (cb : logCtxBuilder) (cid : String) : logCtxBuilder :=
  cb.WithField correlationIdKey (.str cid)

/-- `WithScrapeIdShort`: `WithField(scrapeIdShortKey, id)` (the id is
an `interface{}` value). -/
def logCtxBuilder.WithScrapeIdShort (cb : logCtxBuilder) (id : GoValue) : logCtxBuilder :=
  cb.WithField scrapeIdShortKey id

/-- `WithScrapeIdFull`: `WithField(scrapeIdFullKey, id)` (the id is an
`interface{}` value). -/
def logCtxBuilder.WithScrapeIdFull (cb : logCtxBuilder) (id : GoValue) : logCtxBuilder :=
  cb.WithField scrapeIdFullKey id

/-- `Build`: `init` then return the `ctx` map by reference.  The first
component is the (possibly just-initialized) builder, the second the
returned map. -/
def logCtxBuilder.Build (cb : logCtxBuilder) : logCtxBuilder × FieldMap :=
  let cb := cb.initB
  (cb, cb.ctx.getD [])

/-! ### Map lemmas -/

theorem rangeCopy_nil (dst : FieldMap) : rangeCopy dst [] = dst := rfl

theorem rangeCopy_cons (dst : FieldMap) (p : String × GoValue) (rest : FieldMap) :
    rangeCopy dst (p :: rest) = rangeCopy (mapInsert dst p.1 p.2) rest := rfl

/-- The Go map write is lookup-faithful on every association list. -/
theorem getF_mapInsert (m : FieldMap) (k : String) (v : GoValue) (k' : String) :
    getF (mapInsert m k v) k' = if k' = k then some v else getF m k' := by
  induction m with
  | nil =>
      show (if k' = k then some v else none) = if k' = k then some v else none
      rfl
  | cons p rest ih =>
      obtain ⟨pk, pv⟩ := p
      show getF (if pk = k then (k, v) :: rest else (pk, pv) :: mapInsert rest k v) k'
          = if k' = k then some v else getF ((pk, pv) :: rest) k'
      by_cases hpk : pk = k
      · subst hpk
        rw [if_pos rfl]
        show (if k' = pk then some v else getF rest k')
            = if k' = pk then some v else if k' = pk then some pv else getF rest k'
        by_cases hk' : k' = pk
        · rw [if_pos hk', if_pos hk']
        · rw [if_neg hk', if_neg hk', if_neg hk']
      · rw [if_neg hpk]
        show (if k' = pk then some pv else getF (mapInsert rest k v) k')
            = if k' = k then some v else if k' = pk then some pv else getF rest k'
        by_cases hk' : k' = pk
        · have hk'' : ¬ k' = k := fun h => hpk (hk'.symm.trans h)
          rw [if_pos hk', if_neg hk'', if_pos hk']
        · rw [if_neg hk', ih, if_neg hk']

theorem getF_eq_none_of_not_mem (m : FieldMap) (k : String)
    (h : k ∉ m.map Prod.fst) : getF m k = none := by
  induction m with
  | nil => rfl
  | cons p rest ih =>
      obtain ⟨pk, pv⟩ := p
      simp only [List.map_cons, List.mem_cons, not_or] at h
      show (if k = pk then some pv else getF rest k) = none
      rw [if_neg h.1, ih h.2]

/-- On a unique-key source — every real Go map — the copy loop's result
looks up as: the source's binding when present, the destination's
otherwise.  In particular it is independent of the iteration order. -/
theorem getF_rangeCopy (src : FieldMap) (hs : WFMap src) (dst : FieldMap) (k : String) :
    getF (rangeCopy dst src) k = (getF src k).or (getF dst k) := by
  induction src generalizing dst with
  | nil => rfl
  | cons p rest ih =>
      obtain ⟨pk, pv⟩ := p
      unfold WFMap at hs
      simp only [List.map_cons, List.nodup_cons] at hs
      rw [rangeCopy_cons, ih hs.2, getF_mapInsert]
      by_cases hk : k = pk
      · subst hk
        rw [if_pos rfl, getF_eq_none_of_not_mem rest k hs.1]
        show some pv = (getF ((k, pv) :: rest) k).or (getF dst k)
        show some pv = (if k = k then some pv else getF rest k).or (getF dst k)
        rw [if_pos rfl]
        rfl
      · rw [if_neg hk]
        show (getF rest k).or (getF dst k)
            = (if k = pk then some pv else getF rest k).or (getF dst k)
        rw [if_neg hk]

theorem keys_mapInsert (m : FieldMap) (k : String) (v : GoValue) :
    (mapInsert m k v).map Prod.fst
      = if k ∈ m.map Prod.fst then m.map Prod.fst else m.map Prod.fst ++ [k] := by
  induction m with
  | nil => simp [mapInsert]
  | cons p rest ih =>
      obtain ⟨pk, pv⟩ := p
      by_cases hpk : pk = k
      · subst hpk
        simp [mapInsert]
      · simp only [mapInsert, if_neg hpk, List.map_cons, ih, List.mem_cons]
        by_cases hk : k ∈ rest.map Prod.fst
        · simp [hk, Ne.symm hpk]
        · simp [hk, Ne.symm hpk]

/-- The Go map write preserves key uniqueness. -/
theorem WFMap_mapInsert (m : FieldMap) (k : String) (v : GoValue) (h : WFMap m) :
    WFMap (mapInsert m k v) := by
  unfold WFMap at h ⊢
  rw [keys_mapInsert]
  by_cases hk : k ∈ m.map Prod.fst
  · rw [if_pos hk]; exact h
  · rw [if_neg hk]
    simp [List.nodup_append, h, hk]

/-- The copy loop preserves key uniqueness of the destination. -/
theorem WFMap_rangeCopy (src : FieldMap) (dst : FieldMap) (h : WFMap dst) :
    WFMap (rangeCopy dst src) := by
  induction src generalizing dst with
  | nil => exact h
  | cons p rest ih =>
      rw [rangeCopy_cons]
      exact ih _ (WFMap_mapInsert _ _ _ h)

/-! ### Claims -/

/-- C1: evaluating the code at the failing input: attaching
`{"k" ↦ "parent"}` to the root and then `{"k" ↦ "child"}` to the result
and extracting yields the PARENT's value at the colliding key, because
`ToContext` copies the parent's bindings over the new fields; the
claimed child-wins merge does not hold on key collisions. -/
theorem extract_after_double_attach_keeps_parent_value :
    getF (Extract initialLogger
      (ToContext (ToContext GoCtx.background [("k", GoValue.str "parent")]).1
        [("k", GoValue.str "child")]).1).fields "k"
      = some (GoValue.str "parent") := by decide

/-- C2: `ToContext` never mutates the parent's stored field set: the
child context wraps the parent node unmodified; the only map object the
call writes is its `fields` argument, and even when that argument is
the parent's stored map itself the write-back (`rangeCopy P P`) leaves
every lookup unchanged; extracting from the parent still yields exactly
the field set it carried. -/
theorem toContext_parent_unchanged (lg : LogrusLogger) (ctx : GoCtx)
    (P fields : FieldMap) (hP : ctxValue ctx = some (StoredVal.mapVal P))
    (hWF : WFMap P) :
    (ToContext ctx fields).1
        = GoCtx.withLoggerVal ctx (StoredVal.mapVal (rangeCopy fields P))
    ∧ (∀ k, getF (rangeCopy P P) k = getF P k)
    ∧ Extract lg ctx = { entryLogger := lg, fields := rangeCopy [] P } := by
  refine ⟨?_, ?_, ?_⟩
  · unfold ToContext; rw [hP]; rfl
  · intro k
    rw [getF_rangeCopy P hWF P k]
    cases getF P k <;> rfl
  · unfold Extract; rw [hP]; rfl

/-- Witness for C2 at a concrete parent and field set. -/
theorem toContext_parent_unchanged_witness :
    ctxValue (GoCtx.withLoggerVal GoCtx.background
        (StoredVal.mapVal [("a", GoValue.str "x")]))
      = some (StoredVal.mapVal [("a", GoValue.str "x")])
    ∧ WFMap [("a", GoValue.str "x")]
    ∧ ((ToContext (GoCtx.withLoggerVal GoCtx.background
          (StoredVal.mapVal [("a", GoValue.str "x")]))
          [("b", GoValue.str "y")]).1
        = GoCtx.withLoggerVal (GoCtx.withLoggerVal GoCtx.background
            (StoredVal.mapVal [("a", GoValue.str "x")]))
            (StoredVal.mapVal
              (rangeCopy [("b", GoValue.str "y")] [("a", GoValue.str "x")]))
      ∧ (∀ k, getF (rangeCopy [("a", GoValue.str "x")] [("a", GoValue.str "x")]) k
            = getF [("a", GoValue.str "x")] k)
      ∧ Extract initialLogger (GoCtx.withLoggerVal GoCtx.background
            (StoredVal.mapVal [("a", GoValue.str "x")]))
          = { entryLogger := initialLogger,
              fields := rangeCopy [] [("a", GoValue.str "x")] }) :=
  ⟨rfl, by decide, toContext_parent_unchanged initialLogger _ _ _ rfl (by decide)⟩

/-- C3: evaluating the code at the failing input: attaching an empty
fields map under a parent carrying `{"a" ↦ "x"}` writes the parent's
binding into the caller's map — after the call the caller's map holds
`[("a", "x")]`, not the empty contents it was passed with, so
`ToContext` does overwrite the caller's map. -/
theorem toContext_mutates_fields_argument :
    (ToContext (ToContext GoCtx.background [("a", GoValue.str "x")]).1 []).2
      = [("a", GoValue.str "x")] := by decide

/-- C4: extracting from a context with no value stored under the logger
key always succeeds and returns the entry with an empty field set bound
to the process-wide default logger; `Extract` is total, so it never
fails nor hands the caller a null marker. -/
theorem extract_no_attachment_default (lg : LogrusLogger) (ctx : GoCtx)
    (h : ctxValue ctx = none) :
    Extract lg ctx = { entryLogger := lg, fields := [] } := by
  unfold Extract; rw [h]; rfl

/-- Witness for C4 at the background context. -/
theorem extract_no_attachment_default_witness :
    ctxValue GoCtx.background = none
    ∧ Extract initialLogger GoCtx.background
        = { entryLogger := initialLogger, fields := [] } :=
  ⟨rfl, extract_no_attachment_default initialLogger GoCtx.background rfl⟩

/-- C5: attaching an empty field set and extracting resolves, at every
key, to the same value as the parent's own extraction: the attach of an
empty set is an identity on the resolved fields. -/
theorem attach_empty_preserves_resolved (lg : LogrusLogger) (ctx : GoCtx) :
    ∀ k, getF (Extract lg (ToContext ctx []).1).fields k
      = getF (Extract lg ctx).fields k := by
  intro k
  cases hv : ctxValue ctx with
  | none =>
      have h1 : (ToContext ctx []).1
          = GoCtx.withLoggerVal ctx (StoredVal.mapVal []) := by
        unfold ToContext; rw [hv]; rfl
      have h2 : Extract lg ctx = { entryLogger := lg, fields := [] } := by
        unfold Extract; rw [hv]; rfl
      rw [h1, h2]
      rfl
  | some sv =>
      cases sv with
      | nilMap =>
          have h1 : (ToContext ctx []).1
              = GoCtx.withLoggerVal ctx (StoredVal.mapVal []) := by
            unfold ToContext; rw [hv]; rfl
          have h2 : Extract lg ctx = { entryLogger := lg, fields := [] } := by
            unfold Extract; rw [hv]; rfl
          rw [h1, h2]
          rfl
      | nonMap =>
          have h1 : (ToContext ctx []).1
              = GoCtx.withLoggerVal ctx (StoredVal.mapVal []) := by
            unfold ToContext; rw [hv]; rfl
          have h2 : Extract lg ctx = { entryLogger := lg, fields := [] } := by
            unfold Extract; rw [hv]; rfl
          rw [h1, h2]
          rfl
      | mapVal P =>
          have h1 : (ToContext ctx []).1
              = GoCtx.withLoggerVal ctx (StoredVal.mapVal (rangeCopy [] P)) := by
            unfold ToContext; rw [hv]; rfl
          have h2 : Extract lg ctx
              = { entryLogger := lg, fields := rangeCopy [] P } := by
            unfold Extract; rw [hv]; rfl
          rw [h1, h2]
          show getF (rangeCopy [] (rangeCopy [] P)) k = getF (rangeCopy [] P) k
          have hQ : WFMap (rangeCopy [] P) := WFMap_rangeCopy P [] List.nodup_nil
          rw [getF_rangeCopy _ hQ [] k]
          cases getF (rangeCopy [] P) k <;> rfl

/-- C6: configuring with an unparseable level string never fails: the
severity threshold falls back to info while format `"json"` still
selects the JSON formatter; and every format string other than `"json"`
selects the full-timestamp text formatter. -/
theorem initLogger_fallback_defaults :
    (∀ lvl, ParseLevel lvl = none →
      InitLogger lvl "json"
        = { level := Level.levelInfo, formatter := Formatter.jsonFormatter })
    ∧ (∀ lvl fmt, fmt ≠ "json" →
      (InitLogger lvl fmt).formatter = Formatter.textFormatter true) := by
  constructor
  · intro lvl h
    simp [InitLogger, newLogger, h]
  · intro lvl fmt h
    simp [InitLogger, newLogger, h]

/-- Witness for C6 at `("bogus-level", "json")` and the format
`"text"`. -/
theorem initLogger_fallback_defaults_witness :
    ParseLevel "bogus-level" = none
    ∧ ("text" : String) ≠ "json"
    ∧ InitLogger "bogus-level" "json"
        = { level := Level.levelInfo, formatter := Formatter.jsonFormatter }
    ∧ (InitLogger "info" "text").formatter = Formatter.textFormatter true :=
  ⟨by decide, by decide, initLogger_fallback_defaults.1 "bogus-level" (by decide),
    initLogger_fallback_defaults.2 "info" "text" (by decide)⟩

/-- C7: the chain WithProvider/WithService/WithRegion on a fresh
builder builds exactly the three reserved bindings and no other key. -/
theorem build_chain_exact_fields :
    ∀ k, getF ((((NewLogCtxBuilder.WithProvider "aws").WithService "pke").WithRegion
        "eu-west-1").Build).2 k
      = if k = "provider" then some (GoValue.str "aws")
        else if k = "service" then some (GoValue.str "pke")
        else if k = "region" then some (GoValue.str "eu-west-1")
        else none := by
  intro k
  rfl

/-- C8: `Build` is a repeatable read: a second `Build` returns the same
map and leaves the builder state unchanged, and a `WithField` performed
after a `Build` is reflected by the next `Build` as the corresponding
map write on the previously returned set. -/
theorem build_repeatable_not_resetting (cb : logCtxBuilder) :
    ((cb.Build.1).Build).2 = cb.Build.2
    ∧ ((cb.Build.1).Build).1 = cb.Build.1
    ∧ ∀ k v, (((cb.Build.1).WithField k v).Build).2 = mapInsert cb.Build.2 k v := by
  obtain ⟨o⟩ := cb
  cases o with
  | none => exact ⟨rfl, rfl, fun k v => rfl⟩
  | some m => exact ⟨rfl, rfl, fun k v => rfl⟩

/-- C9: each convenience setter equals `WithField` at its reserved key
with the same value, and the six reserved key constants are the six
documented names. -/
theorem setters_equal_withField (cb : logCtxBuilder) :
    (∀ s, cb.WithProvider s = cb.WithField providerKey (GoValue.str s))
    ∧ (∀ s, cb.WithService s = cb.WithField serviceKey (GoValue.str s))
    ∧ (∀ s, cb.WithRegion s = cb.WithField regionKey (GoValue.str s))
    ∧ (∀ s, cb.WithCorrelationId s = cb.WithField correlationIdKey (GoValue.str s))
    ∧ (∀ v, cb.WithScrapeIdShort v = cb.WithField scrapeIdShortKey v)
    ∧ (∀ v, cb.WithScrapeIdFull v = cb.WithField scrapeIdFullKey v)
    ∧ providerKey = "provider" ∧ serviceKey = "service" ∧ regionKey = "region"
    ∧ correlationIdKey = "correlation-id" ∧ scrapeIdShortKey = "scrape-id-short"
    ∧ scrapeIdFullKey = "scrape-id-full" :=
  ⟨fun _ => rfl, fun _ => rfl, fun _ => rfl, fun _ => rfl, fun _ => rfl, fun _ => rfl,
    rfl, rfl, rfl, rfl, rfl, rfl⟩

/-- C10: a typed-nil map or a non-map value stored under the logger key
makes `Extract` behave exactly as for a context with no attachment at
all: the default-logger entry with no fields, never a failure. -/
theorem extract_malformed_value_as_absent (lg : LogrusLogger) (ctx : GoCtx)
    (h : ctxValue ctx = some StoredVal.nilMap
      ∨ ctxValue ctx = some StoredVal.nonMap) :
    Extract lg ctx = Extract lg GoCtx.background
    ∧ Extract lg ctx = { entryLogger := lg, fields := [] } := by
  rcases h with h | h
  all_goals exact ⟨by unfold Extract; rw [h]; rfl, by unfold Extract; rw [h]; rfl⟩

/-- Witness for C10 at a context storing a typed nil map under the
logger key. -/
theorem extract_malformed_value_as_absent_witness :
    (ctxValue (GoCtx.withLoggerVal GoCtx.background StoredVal.nilMap)
        = some StoredVal.nilMap
      ∨ ctxValue (GoCtx.withLoggerVal GoCtx.background StoredVal.nilMap)
        = some StoredVal.nonMap)
    ∧ (Extract initialLogger (GoCtx.withLoggerVal GoCtx.background StoredVal.nilMap)
        = Extract initialLogger GoCtx.background
      ∧ Extract initialLogger (GoCtx.withLoggerVal GoCtx.background StoredVal.nilMap)
        = { entryLogger := initialLogger, fields := [] }) :=
  ⟨Or.inl rfl, extract_malformed_value_as_absent initialLogger _ (Or.inl rfl)⟩

end Logger
